import Mathlib

/-!
# Verification of the go-countdown timer core

A shallow embedding of the core of the `go-countdown` terminal countdown
timer, together with proofs of the specified properties.

Conventions of the embedding:
* Go `time.Time` instants and `time.Duration` values (int64 nanoseconds)
  are modelled as `Int` nanoseconds.  Overflow of int64 is not modelled.
* Go strings are modelled as Lean `String` / `List Char`; the program only
  manipulates ASCII text, where Go's byte indexing and Lean's character
  lists agree.
* Go's truncated integer division and remainder are `Int.tdiv` / `Int.tmod`.
* Loops are translated to structural recursion; where Go iterates with an
  index, a fuel parameter bounded by the input length keeps the
  translation structurally recursive (the fuel is always sufficient).
-/

namespace Countdown

/-! ## Duration units (nanoseconds) -/

def nsSecond : Int := 1000000000

def nsMinute : Int := 60 * nsSecond

def nsHour : Int := 60 * nsMinute

def nsDay : Int := 24 * nsHour

def nsYear : Int := 365 * nsDay

/-! ## Decimal digits

`fmt.Sprintf("%d", n)` for a nonnegative integer, and the digit handling of
`parseDuration`.  Character classification follows the Go code, which
compares bytes against `'0'` and `'9'`. -/

def isDigitChar (c : Char) : Bool := 48 ≤ c.toNat && c.toNat ≤ 57

def digitVal (c : Char) : Nat := c.toNat - 48

/-- Value of a digit string, as computed by `strconv.Atoi` on an all-digit
string (overflow not modelled). -/
def digitsToNat (cs : List Char) : Nat :=
  cs.foldl (fun acc c => acc * 10 + digitVal c) 0

/-- Decimal digits of `n`, most significant first; `fuel` must exceed `n`. -/
def natDigitsAux : Nat → Nat → List Char
  | 0, _ => []
  | fuel + 1, n =>
    if n < 10 then [Char.ofNat (48 + n)]
    else natDigitsAux fuel (n / 10) ++ [Char.ofNat (48 + n % 10)]

/-- Decimal representation of a natural number (`%d` for `n ≥ 0`). -/
def natDigits (n : Nat) : List Char := natDigitsAux (n + 1) n

/-- `fmt.Sprintf("%d", n)` for an `Int`. -/
def intStr (n : Int) : List Char :=
  if n < 0 then '-' :: natDigits n.natAbs else natDigits n.natAbs

/-! ## parseDuration (main.go)

`parseDuration` lowercases and trims the input, then repeatedly parses
`(digits)(one-character unit)` components, skipping spaces; a trailing
component with no unit character defaults to seconds.  Errors are `none`. -/

/-- Unit multiplier of a suffix character, `none` for an invalid suffix. -/
def suffixMult (c : Char) : Option Int :=
  if c = 's' then some nsSecond
  else if c = 'm' then some nsMinute
  else if c = 'h' then some nsHour
  else if c = 'd' then some nsDay
  else if c = 'y' then some nsYear
  else none

/-- The component loop of `parseDuration`.  Each recursive call consumes at
least one character and one unit of fuel, so `fuel = length + 1` always
suffices. -/
def parseCompAux : Nat → List Char → Int → Option Int
  | 0, _, _ => none
  | _ + 1, [], total => some total
  | fuel + 1, c :: rest, total =>
    if c = ' ' then parseCompAux fuel rest total
    else
      let digits := List.takeWhile isDigitChar (c :: rest)
      if digits.isEmpty then none
      else
        let num := digitsToNat digits
        if num = 0 then none
        else
          match List.dropWhile isDigitChar (c :: rest) with
          | [] => some (total + (num : Int) * nsSecond)
          | u :: rest2 =>
            match suffixMult u with
            | none => none
            | some mult => parseCompAux fuel rest2 (total + (num : Int) * mult)

def parseComponents (cs : List Char) : Option Int :=
  parseCompAux (cs.length + 1) cs 0

/-- `strings.TrimSpace(strings.ToLower(s))`, specialised to the ASCII space
character (the only whitespace the program ever produces or accepts). -/
def goTrimLower (s : String) : List Char :=
  let lower := s.data.map Char.toLower
  ((lower.dropWhile (fun c => c = ' ')).reverse.dropWhile (fun c => c = ' ')).reverse

/-- `parseDuration` of main.go: `none` models a non-nil error. -/
def parseDuration (s : String) : Option Int :=
  let input := goTrimLower s
  if input.isEmpty then none
  else
    match parseComponents input with
    | none => none
    | some total => if total ≤ 0 then none else some total

/-! ## formatDuration (main.go) -/

/-- `Duration.Round(time.Second)`: round to the nearest multiple of one
second, halves away from zero. -/
def goRoundSec (d : Int) : Int :=
  let r := Int.tmod d nsSecond
  if 0 ≤ d then
    if r + r < nsSecond then d - r else d - r + nsSecond
  else
    if -(r + r) < nsSecond then d - r else d - r - nsSecond

/-- `strings.Join(parts, " ")`. -/
def joinSpace : List (List Char) → List Char
  | [] => []
  | [p] => p
  | p :: rest => p ++ ' ' :: joinSpace rest

def formatDurationChars (dIn : Int) : List Char :=
  let d := goRoundSec dIn
  let totalSeconds := Int.tdiv d nsSecond
  let days := Int.tdiv totalSeconds 86400
  let hours := Int.tdiv (Int.tmod totalSeconds 86400) 3600
  let minutes := Int.tdiv (Int.tmod totalSeconds 3600) 60
  let seconds := Int.tmod totalSeconds 60
  let years := Int.tdiv days 365
  let remainingDaysAfterYears := Int.tmod days 365
  let months := Int.tdiv remainingDaysAfterYears 30
  let remainingDays := Int.tmod remainingDaysAfterYears 30
  if days > 60 then
    let parts : List (List Char) := []
    let parts := if years > 0 then parts ++ [intStr years ++ ['y']] else parts
    let parts := if months > 0 then parts ++ [intStr months ++ ['m', 'o']] else parts
    let parts :=
      if remainingDays > 0 && parts.length < 2 then
        parts ++ [intStr remainingDays ++ ['d']]
      else parts
    let parts := if parts.length > 2 then parts.take 2 else parts
    joinSpace parts
  else
    let parts : List (List Char) := []
    let parts := if years > 0 then parts ++ [intStr years ++ ['y']] else parts
    let parts := if months > 0 then parts ++ [intStr months ++ ['m', 'o']] else parts
    let parts := if remainingDays > 0 then parts ++ [intStr remainingDays ++ ['d']] else parts
    let parts := if hours > 0 then parts ++ [intStr hours ++ ['h']] else parts
    let parts := if minutes > 0 then parts ++ [intStr minutes ++ ['m']] else parts
    let parts :=
      if seconds > 0 || parts.isEmpty then parts ++ [intStr seconds ++ ['s']] else parts
    if parts.length > 2 then
      joinSpace (parts.take 2) ++ ' ' :: joinSpace (parts.drop 2)
    else
      joinSpace parts

def formatDuration (d : Int) : String := ⟨formatDurationChars d⟩

/-! ## formatForInput (config.go)

Compact formatter used by the duration-adjustment path.  After the
`totalSeconds ≤ 0` guard all quantities are nonnegative, so the arithmetic
continues on `Nat` (Go's `int` operations agree with `Nat` operations
there). -/

/-- The part construction of `formatForInput`, on the positive whole
seconds `n`. -/
def formatForInputParts (n : Nat) : List (List Char) :=
  let days := n / 86400
  let hours := n % 86400 / 3600
  let minutes := n % 3600 / 60
  let seconds := n % 60
  if days > 0 then
    let years := days / 365
    let remainingDays := days % 365
    let months := remainingDays / 30
    let parts : List (List Char) := []
    let parts := if years > 0 then parts ++ [natDigits years ++ ['y']] else parts
    let parts := if months > 0 then parts ++ [natDigits months ++ ['m', 'o']] else parts
    let parts :=
      if remainingDays % 30 > 0 && parts.length < 2 then
        parts ++ [natDigits (remainingDays % 30) ++ ['d']]
      else parts
    parts
  else if hours > 0 then
    let parts : List (List Char) := [natDigits hours ++ ['h']]
    if minutes > 0 then parts ++ [natDigits minutes ++ ['m']] else parts
  else if minutes > 0 then
    let parts : List (List Char) := [natDigits minutes ++ ['m']]
    if seconds > 0 && parts.length < 2 then parts ++ [natDigits seconds ++ ['s']]
    else parts
  else
    [natDigits seconds ++ ['s']]

def formatForInputChars (dIn : Int) : List Char :=
  let d := goRoundSec dIn
  let totalSeconds := Int.tdiv d nsSecond
  if totalSeconds ≤ 0 then []
  else joinSpace (formatForInputParts totalSeconds.toNat)

def formatForInput (d : Int) : String := ⟨formatForInputChars d⟩

/-! ## Duration adjustment configuration (config.go)

`DurationUnit` is a Go string type; arbitrary strings are possible values,
and `getUnitMultiplier` falls back to minutes on anything unrecognised. -/

structure DurationAdjustConfig where
  unit : String
  incrementStep : Int
  shiftIncrementStep : Int
deriving DecidableEq

/-- The scan of `containsUnit`: Go walks the byte positions and reports a
hit when the character at position `i > 0` equals the suffix and the
character at `i-1` is a digit.  `prev` carries the previous character
(`none` at position 0). -/
def containsUnitAux (suffix : Char) : List Char → Option Char → Bool
  | [], _ => false
  | c :: rest, prev =>
    (match prev with
     | some p => c = suffix && isDigitChar p
     | none => false) || containsUnitAux suffix rest (some c)

/-- `containsUnit` of config.go. -/
def containsUnit (input : String) (suffix : Char) : Bool :=
  containsUnitAux suffix input.data none

/-- `detectLargestUnit` of config.go: the priority list y, d, h, m, s,
unrolled. -/
def detectLargestUnit (input : String) : String :=
  if containsUnit input 'y' then "y"
  else if containsUnit input 'd' then "d"
  else if containsUnit input 'h' then "h"
  else if containsUnit input 'm' then "m"
  else if containsUnit input 's' then "s"
  else ""

/-- `getUnitMultiplier` of config.go.  Note the smart branch has no case
for `"s"`: a detected seconds suffix falls into the default and yields
`time.Minute`. -/
def getUnitMultiplier (unit : String) (currentInput : String) : Int :=
  if unit = "seconds" then nsSecond
  else if unit = "minutes" then nsMinute
  else if unit = "hours" then nsHour
  else if unit = "smart" then
    match detectLargestUnit currentInput with
    | "y" => nsYear
    | "d" => nsDay
    | "h" => nsHour
    | "m" => nsMinute
    | _ => nsMinute
  else nsMinute

/-- Modelled from the spec (§4.2) for comparison with `getUnitMultiplier`:
"if `smart`, scan `currentText` for the largest present unit suffix among
{y,d,h,m,s} (a suffix counts only if immediately preceded by a digit) and
use that unit, defaulting to minutes if none is found". -/
def claimSmartMultiplier (currentText : String) : Int :=
  if containsUnit currentText 'y' then nsYear
  else if containsUnit currentText 'd' then nsDay
  else if containsUnit currentText 'h' then nsHour
  else if containsUnit currentText 'm' then nsMinute
  else if containsUnit currentText 's' then nsSecond
  else nsMinute

/-! ## adjustDuration (adjust.go) -/

/-- `adjustDuration`: parse (errors read as zero), add the delta, clamp at
one second, re-format compactly.  The `config` argument is accepted but,
as in the Go code, unused in the body (the caller derives `delta` from
it). -/
def adjustDuration (currentInput : String) (delta : Int)
    (_config : DurationAdjustConfig) : String :=
  let currentDur := match parseDuration currentInput with
    | some d => d
    | none => 0
  let newDur := currentDur + delta
  let newDur := if newDur < nsSecond then nsSecond else newDur
  formatForInput newDur

/-! ## Timers and the TUI model (main.go, update.go) -/

structure Timer where
  name : String
  /-- `End`: the absolute completion instant (`end` is reserved in Lean). -/
  endT : Int
  paused : Bool
  remaining : Int
  duration : Int
deriving DecidableEq, Repr

inductive FilterMode
  | filterAll
  | filterActive
  | filterPaused
  | filterDone
deriving DecidableEq, Repr

structure InputField where
  label : String
  value : String
deriving DecidableEq, Repr

/-- The bubbletea model of main.go, restricted to the state the embedded
`Update` logic reads or writes.  The bubbles `table.Model` is represented
by its cursor (`SetCursor` / `GotoTop` both position it); the help
component by its `ShowAll` flag.  `lastModTime` tracking is file-system
I/O and is not modelled. -/
structure Model where
  timers : List Timer
  now : Int
  cursor : Int
  tableCursor : Int
  adding : Bool
  editing : Bool
  editingIndex : Int
  confirmingDelete : Bool
  inputFields : List InputField
  activeField : Int
  filter : FilterMode
  dirty : Bool
  showAll : Bool
deriving DecidableEq, Repr

/-- The per-timer test of the `switch m.filter` inside the loop of
`getVisibleTimers` (update.go). -/
def keepTimer (filter : FilterMode) (now : Int) (t : Timer) : Bool :=
  match filter with
  | .filterAll => true
  | .filterActive => !t.paused && t.endT > now
  | .filterPaused => t.paused
  | .filterDone => !t.paused && !(t.endT > now)

/-- `getVisibleTimers` of update.go: the store filtered by the active
filter at instant `m.now`. -/
def Model.getVisibleTimers (m : Model) : List Timer :=
  m.timers.filter (keepTimer m.filter m.now)

/-- The loop condition `t.Name == targetTimer.Name && t.End.Equal(targetTimer.End)`
shared by `getActualTimerIndex` and `resolveIndex`. -/
def timerMatch (targetTimer t : Timer) : Bool :=
  t.name == targetTimer.name && t.endT == targetTimer.endT

/-- `getActualTimerIndex` of update.go: `-1` when the visible index is out
of range, else the first store position whose `(Name, End)` pair equals
the addressed visible timer's. -/
def Model.getActualTimerIndex (m : Model) (visibleIndex : Int) : Int :=
  let visibleTimers := m.getVisibleTimers
  if h : visibleIndex < 0 ∨ (visibleTimers.length : Int) ≤ visibleIndex then -1
  else
    let targetTimer := visibleTimers.get
      ⟨visibleIndex.toNat, by
        rw [not_or] at h
        omega⟩
    match m.timers.findIdx? (timerMatch targetTimer) with
    | some i => (i : Int)
    | none => -1

/-! ## CLI filtered views and index resolution (main.go) -/

/-- `getFilteredTimers` of main.go: the CLI filter is a raw flag string
(`switch` with a default that keeps everything). -/
def getFilteredTimers (timers : List Timer) (filter : String) (now : Int) : List Timer :=
  timers.filter (fun t =>
    if filter = "--active" then !t.paused && t.endT > now
    else if filter = "--paused" then t.paused
    else if filter = "--done" then !t.paused && !(t.endT > now)
    else true)

/-- The three error return paths of `resolveIndex`. -/
inductive ResolveErr
  | indexTooSmall
  | outOfRange
  | timerNotFound
deriving DecidableEq, Repr

/-- `resolveIndex` of main.go: validate the 1-based index against the
filtered view, then locate the addressed timer in the store by its
`(Name, End)` pair. -/
def resolveIndex (timers : List Timer) (filter : String) (idx : Int)
    (now : Int) : Except ResolveErr Nat :=
  if h1 : idx < 1 then .error .indexTooSmall
  else
    let filtered := getFilteredTimers timers filter now
    if h2 : (filtered.length : Int) < idx then .error .outOfRange
    else
      let targetTimer := filtered.get
        ⟨(idx - 1).toNat, by omega⟩
      match timers.findIdx? (timerMatch targetTimer) with
      | some i => .ok i
      | none => .error .timerNotFound

/-! ## The Update key handling (main.go)

`Update` is embedded for `tea.KeyMsg` messages (the messages the claims
concern; window-size, tick, and file-watch messages touch only layout,
`m.now` and reload I/O).  A key message is its `msg.String()` plus whether
`msg.Type == tea.KeyRunes`.  `time.Now()` occurrences are threaded as the
explicit `sysNow` argument.  The `Bool` in the result is `true` when the
branch returned `tea.Quit`; the save-file I/O performed on quit does not
change the modelled state. -/

structure KeyMsg where
  str : String
  isRunes : Bool
deriving DecidableEq, Repr

/-- `m.inputFields[i]` (in reachable states `i` is in bounds; Go would
panic otherwise, the embedding totalises with an empty field). -/
def getField (fields : List InputField) (i : Int) : InputField :=
  fields.getD i.toNat ⟨"", ""⟩

/-- Assignment to `m.inputFields[i].value`. -/
def setFieldValue (fields : List InputField) (i : Int) (v : String) : List InputField :=
  if 0 ≤ i then fields.set i.toNat { getField fields i with value := v } else fields

/-- In-place mutation of `m.timers[i]` through a pointer, as in the `p`,
`r` and edit-commit branches. -/
def setTimerAt (timers : List Timer) (i : Int) (f : Timer → Timer) : List Timer :=
  if 0 ≤ i then
    match timers.get? i.toNat with
    | some t => timers.set i.toNat (f t)
    | none => timers
  else timers

/-- `msg.String()[0]`, the first byte examined by the duration-field input
filter (rune messages are never empty). -/
def firstChar (s : String) : Char := s.data.getD 0 ' '

/-- The `m.adding || m.editing` branch of `Update`. -/
def updateFormKey (m : Model) (msg : KeyMsg) (sysNow : Int) : Model × Bool :=
  if msg.str = "up" ∨ msg.str = "shift+tab" then
    (if m.activeField > 0 then { m with activeField := m.activeField - 1 } else m, false)
  else if msg.str = "down" ∨ msg.str = "tab" then
    (if m.activeField < (m.inputFields.length : Int) - 1 then
       { m with activeField := m.activeField + 1 }
     else m, false)
  else if msg.str = "enter" then
    if m.activeField < (m.inputFields.length : Int) - 1 then
      if m.activeField = 0 ∧ (getField m.inputFields 0).value = "" then (m, false)
      else ({ m with activeField := m.activeField + 1 }, false)
    else
      let m1 : Model :=
        match parseDuration (getField m.inputFields 1).value with
        | some duration =>
          if (getField m.inputFields 0).value ≠ "" then
            if m.editing then
              { m with
                timers := setTimerAt m.timers m.editingIndex (fun t =>
                  { t with
                    name := (getField m.inputFields 0).value
                    endT := sysNow + duration
                    duration := duration
                    paused := false
                    remaining := 0 })
                dirty := true }
            else
              let newTimer : Timer :=
                { name := (getField m.inputFields 0).value
                  endT := sysNow + duration
                  paused := false
                  remaining := 0
                  duration := duration }
              let m2 := { m with timers := m.timers ++ [newTimer] }
              { m2 with
                cursor := (m2.getVisibleTimers.length : Int) - 1
                dirty := true }
          else m
        | none => m
      ({ m1 with
          adding := false
          editing := false
          inputFields := m1.inputFields.map (fun f => { f with value := "" }) }, false)
  else if msg.str = "esc" then
    ({ m with
        adding := false
        editing := false
        inputFields := m.inputFields.map (fun f => { f with value := "" }) }, false)
  else if msg.str = "backspace" then
    let v := (getField m.inputFields m.activeField).value
    (if v.length > 0 then
       { m with inputFields := setFieldValue m.inputFields m.activeField ⟨v.data.dropLast⟩ }
     else m, false)
  else
    if msg.str = " " ∧ m.activeField = 0 then
      ({ m with
          inputFields :=
            setFieldValue m.inputFields m.activeField
              ((getField m.inputFields m.activeField).value ++ " ") }, false)
    else if msg.isRunes then
      let ch := firstChar msg.str
      if m.activeField = 0 then
        ({ m with
            inputFields :=
              setFieldValue m.inputFields m.activeField
                ((getField m.inputFields m.activeField).value ++ msg.str) }, false)
      else if m.activeField = 1 then
        if isDigitChar ch ∨ ch = 's' ∨ ch = 'm' ∨ ch = 'h' ∨ ch = 'd' ∨ ch = 'y' then
          ({ m with
              inputFields :=
                setFieldValue m.inputFields m.activeField
                  ((getField m.inputFields m.activeField).value ++ msg.str) }, false)
        else (m, false)
      else (m, false)
    else (m, false)

/-- `timers[i].Duration` as read by the `r` branch guard. -/
def timers_get_dur (timers : List Timer) (i : Int) : Int :=
  (timers.getD i.toNat ⟨"", 0, false, 0, 0⟩).duration

/-- `(m.filter + 1) % 4` of the `tab` branch. -/
def nextFilter : FilterMode → FilterMode
  | .filterAll => .filterActive
  | .filterActive => .filterPaused
  | .filterPaused => .filterDone
  | .filterDone => .filterAll

/-- The main `switch msg.String()` of `Update` (reached when no form is
open and, for locked-out keys, the confirming-delete gate has not already
returned). -/
def updateBrowseKey (m : Model) (msg : KeyMsg) (sysNow : Int) : Model × Bool :=
  if msg.str = "q" ∨ msg.str = "ctrl+c" then
    (m, true)
  else if msg.str = "p" then
    let actualIdx := m.getActualTimerIndex m.cursor
    if actualIdx ≥ 0 ∧ m.timers.length > 0 then
      match m.timers.get? actualIdx.toNat with
      | some t =>
        if !t.paused then
          if t.endT > sysNow then
            ({ m with
                timers := setTimerAt m.timers actualIdx (fun t =>
                  { t with remaining := t.endT - sysNow, paused := true })
                dirty := true }, false)
          else (m, false)
        else
          if t.remaining > 0 then
            ({ m with
                timers := setTimerAt m.timers actualIdx (fun t =>
                  { t with endT := sysNow + t.remaining, paused := false })
                dirty := true }, false)
          else (m, false)
      | none => (m, false)
    else (m, false)
  else if msg.str = "up" ∨ msg.str = "k" then
    let visibleTimers := m.getVisibleTimers
    if m.cursor > 0 then
      ({ m with cursor := m.cursor - 1, tableCursor := m.cursor - 1 }, false)
    else if visibleTimers.length = 0 then
      ({ m with cursor := 0, tableCursor := 0 }, false)
    else (m, false)
  else if msg.str = "down" ∨ msg.str = "j" then
    let visibleTimers := m.getVisibleTimers
    if m.cursor < (visibleTimers.length : Int) - 1 then
      ({ m with cursor := m.cursor + 1, tableCursor := m.cursor + 1 }, false)
    else (m, false)
  else if msg.str = "ctrl+k" ∨ msg.str = "ctrl+up" then
    let actualIdx := m.getActualTimerIndex m.cursor
    if actualIdx > 0 then
      match m.timers.get? (actualIdx.toNat - 1), m.timers.get? actualIdx.toNat with
      | some a, some b =>
        ({ m with
            timers := (m.timers.set (actualIdx.toNat - 1) b).set actualIdx.toNat a
            cursor := if m.cursor > 0 then m.cursor - 1 else m.cursor
            dirty := true }, false)
      | _, _ => (m, false)
    else (m, false)
  else if msg.str = "ctrl+j" ∨ msg.str = "ctrl+down" then
    let actualIdx := m.getActualTimerIndex m.cursor
    if actualIdx < (m.timers.length : Int) - 1 ∧ actualIdx ≥ 0 then
      match m.timers.get? actualIdx.toNat, m.timers.get? (actualIdx.toNat + 1) with
      | some a, some b =>
        let m1 := { m with
          timers := (m.timers.set actualIdx.toNat b).set (actualIdx.toNat + 1) a
          dirty := true }
        let visibleTimers := m1.getVisibleTimers
        (if m1.cursor < (visibleTimers.length : Int) - 1 then
           { m1 with cursor := m1.cursor + 1 }
         else m1, false)
      | _, _ => (m, false)
    else (m, false)
  else if msg.str = "d" then
    let actualIdx := m.getActualTimerIndex m.cursor
    if actualIdx < 0 ∨ m.timers.length = 0 then (m, false)
    else if m.confirmingDelete then
      let m1 := { m with timers := m.timers.eraseIdx actualIdx.toNat }
      let visibleTimers := m1.getVisibleTimers
      let m2 :=
        if m1.cursor ≥ (visibleTimers.length : Int) ∧ m1.cursor > 0 then
          { m1 with cursor := m1.cursor - 1 }
        else m1
      ({ m2 with confirmingDelete := false, dirty := true }, false)
    else ({ m with confirmingDelete := true }, false)
  else if msg.str = "y" ∨ msg.str = "Y" ∨ msg.str = "enter" then
    let actualIdx := m.getActualTimerIndex m.cursor
    if m.confirmingDelete then
      if actualIdx ≥ 0 ∧ m.timers.length > 0 then
        let m1 := { m with timers := m.timers.eraseIdx actualIdx.toNat }
        let visibleTimers := m1.getVisibleTimers
        let m2 :=
          if m1.cursor ≥ (visibleTimers.length : Int) ∧ m1.cursor > 0 then
            { m1 with cursor := m1.cursor - 1 }
          else m1
        ({ m2 with confirmingDelete := false, dirty := true }, false)
      else (m, false)
    else (m, false)
  else if msg.str = "n" ∨ msg.str = "N" ∨ msg.str = "esc" then
    (if m.confirmingDelete then { m with confirmingDelete := false } else m, false)
  else if msg.str = "a" then
    if m.adding ∨ m.editing then (m, false)
    else
      ({ m with
          adding := true
          inputFields := [⟨"Name", ""⟩, ⟨"Duration", ""⟩]
          activeField := 0 }, false)
  else if msg.str = "r" then
    let actualIdx := m.getActualTimerIndex m.cursor
    if actualIdx ≥ 0 ∧ m.timers.length > 0 ∧
        (timers_get_dur m.timers actualIdx) > 0 then
      ({ m with
          timers := setTimerAt m.timers actualIdx (fun t =>
            { t with endT := sysNow + t.duration, paused := false, remaining := 0 })
          dirty := true }, false)
    else (m, false)
  else if msg.str = "e" then
    let actualIdx := m.getActualTimerIndex m.cursor
    if actualIdx ≥ 0 ∧ m.timers.length > 0 then
      let t := (m.timers.getD actualIdx.toNat ⟨"", 0, false, 0, 0⟩)
      ({ m with
          editing := true
          editingIndex := actualIdx
          inputFields := [⟨"Name", t.name⟩, ⟨"Duration", formatDuration t.duration⟩]
          activeField := 0 }, false)
    else (m, false)
  else if msg.str = "tab" then
    let m1 := { m with filter := nextFilter m.filter }
    let visibleTimers := m1.getVisibleTimers
    (if visibleTimers.length = 0 then { m1 with cursor := 0 }
     else if m1.cursor ≥ (visibleTimers.length : Int) then
       { m1 with cursor := (visibleTimers.length : Int) - 1 }
     else m1, false)
  else if msg.str = "1" then
    ({ m with filter := .filterAll, cursor := 0, tableCursor := 0 }, false)
  else if msg.str = "2" then
    ({ m with filter := .filterActive, cursor := 0, tableCursor := 0 }, false)
  else if msg.str = "3" then
    ({ m with filter := .filterPaused, cursor := 0, tableCursor := 0 }, false)
  else if msg.str = "4" then
    ({ m with filter := .filterDone, cursor := 0, tableCursor := 0 }, false)
  else (m, false)

/-- The `tea.KeyMsg` case of `Update` (main.go): the help toggle guard,
then the form branch, then the confirming-delete key lockout, then the
main switch. -/
def updateKey (m : Model) (msg : KeyMsg) (sysNow : Int) : Model × Bool :=
  if msg.str = "?" then
    (if !m.adding && !m.editing && !m.confirmingDelete then
       { m with showAll := !m.showAll }
     else m, false)
  else if m.adding ∨ m.editing then
    updateFormKey m msg sysNow
  else if m.confirmingDelete ∧
      ¬(msg.str = "y" ∨ msg.str = "Y" ∨ msg.str = "n" ∨ msg.str = "N" ∨
        msg.str = "d" ∨ msg.str = "esc" ∨ msg.str = "enter") then
    (m, false)
  else
    updateBrowseKey m msg sysNow

/-! ## The popup compositor (renderPopupOverlay)

The line-merge logic of `renderPopupOverlay`, on the lines of the
background frame and of the rendered popup (the function splits and joins
them at newlines; the merge itself is embedded).  `width`/`height` are the
terminal size after the zero-default substitution performed at the top of
the function (`0 → 80×24`).  Go's `max(0, (height-popupHeight)/2)` is
written with `Nat` truncated subtraction, which computes the same value. -/

def popupWidth : Nat := 66

def renderPopupOverlay (mainLines popupLines : List (List Char))
    (width height : Nat) : List (List Char) :=
  let popupHeight := popupLines.length
  let popupStartRow := (height - popupHeight) / 2
  let popupStartCol := (width - popupWidth) / 2
  let popupEndCol := popupStartCol + popupWidth
  (List.range height).map (fun row =>
    if popupStartRow ≤ row ∧ row < popupStartRow + popupHeight then
      let popupLine := popupLines.getD (row - popupStartRow) []
      let bgLine := mainLines.getD row []
      (if bgLine.length > popupStartCol then bgLine.take popupStartCol
       else bgLine ++ List.replicate (popupStartCol - bgLine.length) ' ')
      ++ popupLine
      ++ (if bgLine.length > popupEndCol then bgLine.drop popupEndCol else [])
    else
      if row < mainLines.length then mainLines.getD row []
      else List.replicate width ' ')

/-! ## Shared lemmas: the match predicate and first-match search -/

lemma timerMatch_self (t : Timer) : timerMatch t t = true := by
  simp [timerMatch]

lemma findIdx?_found {α : Type} {p : α → Bool} {l : List α} {x : α}
    (hx : x ∈ l) (hp : p x = true) :
    ∃ i, l.findIdx? p = some i ∧ i < l.length := by
  have hsome : (l.findIdx? p).isSome = true := by
    rw [List.findIdx?_isSome]
    exact List.any_eq_true.mpr ⟨x, hx, hp⟩
  obtain ⟨i, hi⟩ := Option.isSome_iff_exists.mp hsome
  obtain ⟨hlt, -, -⟩ := List.findIdx?_eq_some_iff_getElem.mp hi
  exact ⟨i, hi, hlt⟩

/-- For an in-range visible index, `getActualTimerIndex` reaches the
search loop and the search succeeds on a store position. -/
lemma getActualTimerIndex_finds (m : Model) (vi : Int) (h0 : 0 ≤ vi)
    (hlen : vi < (m.getVisibleTimers.length : Int)) :
    ∃ (hv : vi.toNat < m.getVisibleTimers.length) (i : Nat),
      m.timers.findIdx? (timerMatch (m.getVisibleTimers.get ⟨vi.toNat, hv⟩)) = some i ∧
      m.getActualTimerIndex vi = (i : Int) ∧ i < m.timers.length := by
  have hv : vi.toNat < m.getVisibleTimers.length := by omega
  have hmem : m.getVisibleTimers.get ⟨vi.toNat, hv⟩ ∈ m.timers := by
    have h1 : m.getVisibleTimers.get ⟨vi.toNat, hv⟩ ∈ m.getVisibleTimers :=
      List.getElem_mem hv
    exact (List.mem_filter.mp h1).1
  obtain ⟨i, hfi, hilt⟩ :=
    findIdx?_found hmem (timerMatch_self (m.getVisibleTimers.get ⟨vi.toNat, hv⟩))
  refine ⟨hv, i, hfi, ?_, hilt⟩
  unfold Model.getActualTimerIndex
  rw [dif_neg (by omega : ¬(vi < 0 ∨ (m.getVisibleTimers.length : Int) ≤ vi))]
  simp only [hfi]

/-- For an in-range 1-based index, `resolveIndex` reaches the search loop
and returns a store position (the `timer not found` path is dead). -/
lemma resolveIndex_ok_of_inrange (timers : List Timer) (filter : String)
    (idx now : Int) (h1 : 1 ≤ idx)
    (h2 : idx ≤ ((getFilteredTimers timers filter now).length : Int)) :
    ∃ i : Nat, resolveIndex timers filter idx now = .ok i ∧ i < timers.length := by
  have hv : (idx - 1).toNat < (getFilteredTimers timers filter now).length := by omega
  have hmem : (getFilteredTimers timers filter now).get ⟨(idx - 1).toNat, hv⟩ ∈ timers := by
    have hm : (getFilteredTimers timers filter now).get ⟨(idx - 1).toNat, hv⟩ ∈
        getFilteredTimers timers filter now := List.getElem_mem hv
    exact (List.mem_filter.mp hm).1
  obtain ⟨i, hfi, hilt⟩ := findIdx?_found hmem (timerMatch_self _)
  refine ⟨i, ?_, hilt⟩
  unfold resolveIndex
  rw [dif_neg (by omega : ¬idx < 1),
    dif_neg (by omega : ¬((getFilteredTimers timers filter now).length : Int) < idx)]
  simp only [hfi]

/-! ## C1: the three buckets partition the store; views are order-preserving -/

/-- C1: at every instant each timer satisfies exactly one of the Active,
Paused and Done filter predicates; the All view keeps every timer, the
Active and Paused views are disjoint, and every filtered view is an
order-preserving subsequence of the store. -/
theorem buckets_partition_and_views (m : Model) :
    (∀ t ∈ m.timers,
      (keepTimer .filterActive m.now t = true ∧ keepTimer .filterPaused m.now t = false ∧
        keepTimer .filterDone m.now t = false) ∨
      (keepTimer .filterActive m.now t = false ∧ keepTimer .filterPaused m.now t = true ∧
        keepTimer .filterDone m.now t = false) ∨
      (keepTimer .filterActive m.now t = false ∧ keepTimer .filterPaused m.now t = false ∧
        keepTimer .filterDone m.now t = true)) ∧
    ({ m with filter := .filterAll } : Model).getVisibleTimers.length = m.timers.length ∧
    (∀ t, t ∈ ({ m with filter := .filterActive } : Model).getVisibleTimers →
      t ∉ ({ m with filter := .filterPaused } : Model).getVisibleTimers) ∧
    m.getVisibleTimers.Sublist m.timers := by
  refine ⟨?_, ?_, ?_, ?_⟩
  · intro t _
    by_cases hp : t.paused = true
    · right; left; simp [keepTimer, hp]
    · rw [Bool.not_eq_true] at hp
      by_cases he : t.endT > m.now
      · left; simp [keepTimer, hp, he]
      · right; right; simp [keepTimer, hp, he]
  · simp [Model.getVisibleTimers, keepTimer]
  · intro t hact hpau
    have h1 := (List.mem_filter.mp hact).2
    have h2 := (List.mem_filter.mp hpau).2
    simp [keepTimer] at h1 h2
    simp [h2] at h1
  · exact List.filter_sublist m.timers

/-- Witness for C1 at a one-timer store. -/
theorem buckets_partition_and_views_witness :
    (keepTimer .filterActive 0 ⟨"a", 10, false, 0, 5⟩ = true ∧
      keepTimer .filterPaused 0 ⟨"a", 10, false, 0, 5⟩ = false ∧
      keepTimer .filterDone 0 ⟨"a", 10, false, 0, 5⟩ = false) ∨
    (keepTimer .filterActive 0 ⟨"a", 10, false, 0, 5⟩ = false ∧
      keepTimer .filterPaused 0 ⟨"a", 10, false, 0, 5⟩ = true ∧
      keepTimer .filterDone 0 ⟨"a", 10, false, 0, 5⟩ = false) ∨
    (keepTimer .filterActive 0 ⟨"a", 10, false, 0, 5⟩ = false ∧
      keepTimer .filterPaused 0 ⟨"a", 10, false, 0, 5⟩ = false ∧
      keepTimer .filterDone 0 ⟨"a", 10, false, 0, 5⟩ = true) :=
  (buckets_partition_and_views
    ⟨[⟨"a", 10, false, 0, 5⟩], 0, 0, 0, false, false, 0, false, [], 0, .filterAll,
      false, false⟩).1 ⟨"a", 10, false, 0, 5⟩ (by decide)

/-! ## C5: input lockout in the ConfirmingDelete state -/

/-- C5: while `confirmingDelete` is set (and no form is open), any key
other than the accepted confirmation keys `y`/`Y`/`enter`/`d` (confirm),
`n`/`N` (cancel) and `esc` leaves the whole model unchanged and does not
quit. -/
theorem confirmingDelete_lockout (m : Model) (msg : KeyMsg) (sysNow : Int)
    (hc : m.confirmingDelete = true) (ha : m.adding = false) (he : m.editing = false)
    (hk : msg.str ≠ "y" ∧ msg.str ≠ "Y" ∧ msg.str ≠ "n" ∧ msg.str ≠ "N" ∧
      msg.str ≠ "d" ∧ msg.str ≠ "esc" ∧ msg.str ≠ "enter") :
    updateKey m msg sysNow = (m, false) := by
  obtain ⟨h1, h2, h3, h4, h5, h6, h7⟩ := hk
  by_cases hq : msg.str = "?"
  · simp [updateKey, hq, hc]
  · simp [updateKey, hq, hc, ha, he, h1, h2, h3, h4, h5, h6, h7]

/-- Witness for C5: the `x` key is swallowed while confirming a delete. -/
theorem confirmingDelete_lockout_witness :
    updateKey
      ⟨[⟨"a", 10, false, 0, 5⟩], 0, 0, 0, false, false, 0, true, [], 0, .filterAll,
        false, false⟩ ⟨"x", true⟩ 0 =
    (⟨[⟨"a", 10, false, 0, 5⟩], 0, 0, 0, false, false, 0, true, [], 0, .filterAll,
        false, false⟩, false) :=
  confirmingDelete_lockout _ _ 0 rfl rfl rfl (by decide)

/-! ## C8: escape from the form leaves the store and dirty flag intact -/

/-- C8: in the adding/editing state, `esc` returns to browsing with the
timer store, dirty flag, cursor and filter untouched. -/
theorem editing_escape_no_mutation (m : Model) (sysNow : Int)
    (h : m.adding = true ∨ m.editing = true) :
    ∃ m' : Model, updateKey m ⟨"esc", false⟩ sysNow = (m', false) ∧
      m'.timers = m.timers ∧ m'.dirty = m.dirty ∧
      m'.adding = false ∧ m'.editing = false ∧
      m'.cursor = m.cursor ∧ m'.filter = m.filter := by
  refine ⟨{ m with
      adding := false
      editing := false
      inputFields := m.inputFields.map (fun f => { f with value := "" }) }, ?_,
    rfl, rfl, rfl, rfl, rfl, rfl⟩
  have hform : m.adding = true ∨ m.editing = true := h
  simp only [updateKey, updateFormKey]
  norm_num
  rcases hform with h' | h' <;> simp [h']

/-- Witness for C8 at a concrete editing session. -/
theorem editing_escape_no_mutation_witness :
    ∃ m' : Model,
      updateKey
        ⟨[⟨"a", 10, false, 0, 5⟩], 0, 0, 0, false, true, 0, false,
          [⟨"Name", "a"⟩, ⟨"Duration", "5s"⟩], 0, .filterAll, false, false⟩
        ⟨"esc", false⟩ 0 = (m', false) ∧
      m'.timers = [⟨"a", 10, false, 0, 5⟩] ∧ m'.dirty = false ∧
      m'.adding = false ∧ m'.editing = false ∧ m'.cursor = 0 ∧ m'.filter = .filterAll := by
  obtain ⟨m', hm, h1, h2, h3, h4, h5, h6⟩ :=
    editing_escape_no_mutation
      ⟨[⟨"a", 10, false, 0, 5⟩], 0, 0, 0, false, true, 0, false,
        [⟨"Name", "a"⟩, ⟨"Duration", "5s"⟩], 0, .filterAll, false, false⟩
      0 (Or.inr rfl)
  exact ⟨m', hm, h1, h2, h3, h4, h5, h6⟩

/-! ## C7: cursor-to-store index resolution -/

/-- C7: when the cursor is inside `[0, len(visible)-1]`,
`getActualTimerIndex` returns the index of the first store timer whose
`(name, end)` pair equals the addressed filtered item's; outside that
range it returns `-1`. -/
theorem actual_index_spec (m : Model) (vi : Int) :
    (∀ target, 0 ≤ vi → vi < (m.getVisibleTimers.length : Int) →
      m.getVisibleTimers[vi.toNat]? = some target →
      ∃ i : Nat, m.getActualTimerIndex vi = (i : Int) ∧ i < m.timers.length ∧
        (∀ t, m.timers[i]? = some t → t.name = target.name ∧ t.endT = target.endT) ∧
        (∀ j, j < i → ∀ u, m.timers[j]? = some u →
          ¬(u.name = target.name ∧ u.endT = target.endT))) ∧
    ((vi < 0 ∨ (m.getVisibleTimers.length : Int) ≤ vi) →
      m.getActualTimerIndex vi = -1) := by
  constructor
  · intro target h0 hlen htgt
    obtain ⟨hv, i, hfi, hval, hilt⟩ := getActualTimerIndex_finds m vi h0 hlen
    have htg : m.getVisibleTimers.get ⟨vi.toNat, hv⟩ = target := by
      have := List.getElem?_eq_getElem hv
      rw [this] at htgt
      exact Option.some.inj htgt
    rw [htg] at hfi
    obtain ⟨hlt, hp, hmin⟩ := List.findIdx?_eq_some_iff_getElem.mp hfi
    refine ⟨i, hval, hilt, ?_, ?_⟩
    · intro t ht
      rw [List.getElem?_eq_getElem hlt] at ht
      have ht' : m.timers[i] = t := Option.some.inj ht
      rw [← ht']
      unfold timerMatch at hp
      rw [Bool.and_eq_true, beq_iff_eq, beq_iff_eq] at hp
      exact hp
    · intro j hj u hu
      have hjlt : j < m.timers.length := by omega
      rw [List.getElem?_eq_getElem hjlt] at hu
      have hu' : m.timers[j] = u := Option.some.inj hu
      have := hmin j hj
      rw [hu'] at this
      unfold timerMatch at this
      rw [Bool.and_eq_true, beq_iff_eq, beq_iff_eq] at this
      tauto
  · intro hout
    unfold Model.getActualTimerIndex
    rw [dif_pos hout]

/-- Witness for C7: a two-timer store filtered to Done, cursor 0, resolves
to store position 1; cursor 5 is out of range and yields `-1`. -/
theorem actual_index_spec_witness :
    ∃ i : Nat,
      Model.getActualTimerIndex
        ⟨[⟨"a", 10, false, 0, 5⟩, ⟨"b", -3, false, 0, 5⟩], 0, 0, 0, false, false, 0,
          false, [], 0, .filterDone, false, false⟩ 0 = (i : Int) ∧
      i < 2 ∧
      Model.getActualTimerIndex
        ⟨[⟨"a", 10, false, 0, 5⟩, ⟨"b", -3, false, 0, 5⟩], 0, 0, 0, false, false, 0,
          false, [], 0, .filterDone, false, false⟩ 5 = -1 := by
  obtain ⟨i, h1, h2, -, -⟩ :=
    (actual_index_spec
      ⟨[⟨"a", 10, false, 0, 5⟩, ⟨"b", -3, false, 0, 5⟩], 0, 0, 0, false, false, 0,
        false, [], 0, .filterDone, false, false⟩ 0).1
      ⟨"b", -3, false, 0, 5⟩ (by decide) (by decide) (by decide)
  refine ⟨i, h1, h2, ?_⟩
  exact (actual_index_spec
    ⟨[⟨"a", 10, false, 0, 5⟩, ⟨"b", -3, false, 0, 5⟩], 0, 0, 0, false, false, 0,
      false, [], 0, .filterDone, false, false⟩ 5).2 (by decide)

/-! ## C6: CLI index validation -/

/-- C6: `resolveIndex` returns an error exactly when the 1-based index
falls outside the filtered view; on an in-range index it returns a store
position without error. -/
theorem resolve_index_err_iff (timers : List Timer) (filter : String) (idx now : Int) :
    ((∃ e, resolveIndex timers filter idx now = .error e) ↔
      (idx < 1 ∨ ((getFilteredTimers timers filter now).length : Int) < idx)) := by
  constructor
  · intro ⟨e, he⟩
    by_contra hin
    rw [not_or] at hin
    obtain ⟨i, hok, -⟩ :=
      resolveIndex_ok_of_inrange timers filter idx now (by omega) (by omega)
    rw [hok] at he
    exact Except.noConfusion he
  · intro hout
    by_cases h1 : idx < 1
    · refine ⟨.indexTooSmall, ?_⟩
      unfold resolveIndex
      rw [dif_pos h1]
    · refine ⟨.outOfRange, ?_⟩
      unfold resolveIndex
      rw [dif_neg h1, dif_pos (by omega : ((getFilteredTimers timers filter now).length : Int) < idx)]

/-- Witness for C6: `pause --active 5` against three active timers is an
out-of-range error, while index 2 resolves. -/
theorem resolve_index_err_iff_witness :
    (∃ e, resolveIndex
      [⟨"a", 10, false, 0, 5⟩, ⟨"b", 20, false, 0, 5⟩, ⟨"c", 30, false, 0, 5⟩]
      "--active" 5 0 = .error e) ∧
    ¬(∃ e, resolveIndex
      [⟨"a", 10, false, 0, 5⟩, ⟨"b", 20, false, 0, 5⟩, ⟨"c", 30, false, 0, 5⟩]
      "--active" 2 0 = .error e) := by
  constructor
  · exact (resolve_index_err_iff
      [⟨"a", 10, false, 0, 5⟩, ⟨"b", 20, false, 0, 5⟩, ⟨"c", 30, false, 0, 5⟩]
      "--active" 5 0).mpr (by decide)
  · intro h
    have := (resolve_index_err_iff
      [⟨"a", 10, false, 0, 5⟩, ⟨"b", 20, false, 0, 5⟩, ⟨"c", 30, false, 0, 5⟩]
      "--active" 2 0).mp h
    revert this
    decide

/-! ## C10: resolution never misses for in-range positions -/

/-- C10: for an in-range position the equality search always finds the
addressed filtered item in the store — `getActualTimerIndex`'s trailing
`-1` branch and `resolveIndex`'s `timer not found` error are unreachable,
and the returned store index is in `[0, len(timers))`. -/
theorem resolution_total :
    (∀ (m : Model) (vi : Int), 0 ≤ vi → vi < (m.getVisibleTimers.length : Int) →
      0 ≤ m.getActualTimerIndex vi ∧
        m.getActualTimerIndex vi < (m.timers.length : Int)) ∧
    (∀ (timers : List Timer) (filter : String) (idx now : Int),
      1 ≤ idx → idx ≤ ((getFilteredTimers timers filter now).length : Int) →
      ∃ i : Nat, resolveIndex timers filter idx now = .ok i ∧ i < timers.length) := by
  constructor
  · intro m vi h0 hlen
    obtain ⟨hv, i, -, hval, hilt⟩ := getActualTimerIndex_finds m vi h0 hlen
    rw [hval]
    omega
  · intro timers filter idx now h1 h2
    exact resolveIndex_ok_of_inrange timers filter idx now h1 h2

/-- Witness for C10 on a two-timer store. -/
theorem resolution_total_witness :
    (0 ≤ Model.getActualTimerIndex
        ⟨[⟨"a", 10, false, 0, 5⟩, ⟨"b", -3, false, 0, 5⟩], 0, 0, 0, false, false, 0,
          false, [], 0, .filterDone, false, false⟩ 0 ∧
      Model.getActualTimerIndex
        ⟨[⟨"a", 10, false, 0, 5⟩, ⟨"b", -3, false, 0, 5⟩], 0, 0, 0, false, false, 0,
          false, [], 0, .filterDone, false, false⟩ 0 < (2 : Int)) ∧
    ∃ i : Nat, resolveIndex [⟨"a", 10, false, 0, 5⟩, ⟨"b", -3, false, 0, 5⟩]
      "--done" 1 0 = .ok i ∧ i < 2 := by
  constructor
  · exact resolution_total.1
      ⟨[⟨"a", 10, false, 0, 5⟩, ⟨"b", -3, false, 0, 5⟩], 0, 0, 0, false, false, 0,
        false, [], 0, .filterDone, false, false⟩ 0 (by decide) (by decide)
  · exact resolution_total.2 [⟨"a", 10, false, 0, 5⟩, ⟨"b", -3, false, 0, 5⟩]
      "--done" 1 0 (by decide) (by decide)

/-! ## C3: unit resolution for duration adjustment -/

/-- The scan hit of `containsUnit`, characterised: some position holds a
digit immediately followed by the suffix character. -/
lemma containsUnitAux_iff (u : Char) (cs : List Char) : ∀ (prev : Option Char),
    containsUnitAux u cs prev = true ↔
      ((∃ p, prev = some p ∧ isDigitChar p = true ∧ cs[0]? = some u) ∨
        (∃ i p, cs[i]? = some p ∧ isDigitChar p = true ∧ cs[i + 1]? = some u)) := by
  induction cs with
  | nil =>
    intro prev
    simp [containsUnitAux]
  | cons c rest ih =>
    intro prev
    rw [show containsUnitAux u (c :: rest) prev =
        ((match prev with
          | some p => c = u && isDigitChar p
          | none => false) || containsUnitAux u rest (some c)) from rfl,
      Bool.or_eq_true, ih (some c)]
    constructor
    · rintro (hhead | hfirst | ⟨i, p, h1, h2, h3⟩)
      · cases prev with
        | none => simp at hhead
        | some p =>
          rw [Bool.and_eq_true, decide_eq_true_eq] at hhead
          exact Or.inl ⟨p, rfl, hhead.2, by simp [hhead.1]⟩
      · obtain ⟨p, hp, hdig, hrest⟩ := hfirst
        have hcp : c = p := Option.some.inj hp
        subst hcp
        exact Or.inr ⟨0, c, by simp, hdig, by simpa using hrest⟩
      · exact Or.inr ⟨i + 1, p, by simpa using h1, h2, by simpa using h3⟩
    · rintro (⟨p, hp, hdig, hc⟩ | ⟨i, p, h1, h2, h3⟩)
      · subst hp
        left
        rw [Bool.and_eq_true, decide_eq_true_eq]
        exact ⟨by simpa using hc, hdig⟩
      · cases i with
        | zero =>
          right; left
          refine ⟨c, rfl, ?_, by simpa using h3⟩
          have : c = p := by simpa using h1
          rw [this]; exact h2
        | succ j =>
          right; right
          exact ⟨j, p, by simpa using h1, h2, by simpa using h3⟩

/-- C3 counterexample: with smart unit resolution on the text `"30s"`, the
largest detected suffix is `s`, so the claim prescribes scaling by
seconds; the code's `getUnitMultiplier` has no `"s"` case in its smart
switch and scales by minutes instead. -/
theorem smart_unit_seconds_counterexample :
    detectLargestUnit "30s" = "s" ∧
    getUnitMultiplier "smart" "30s" = nsMinute ∧
    claimSmartMultiplier "30s" = nsSecond ∧
    getUnitMultiplier "smart" "30s" ≠ claimSmartMultiplier "30s" := by
  decide

/-- C3 (amended): fixed units are used regardless of the text; a suffix is
detected exactly when it is immediately preceded by a digit; under smart
resolution the largest detected unit among y, d, h scales the increment,
while a largest detected unit of m or s — or no detected unit — scales by
minutes. -/
theorem unit_multiplier_spec (text : String) :
    getUnitMultiplier "seconds" text = nsSecond ∧
    getUnitMultiplier "minutes" text = nsMinute ∧
    getUnitMultiplier "hours" text = nsHour ∧
    (∀ u : Char, containsUnit text u = true ↔
      ∃ i p, text.data[i]? = some p ∧ isDigitChar p = true ∧
        text.data[i + 1]? = some u) ∧
    getUnitMultiplier "smart" text =
      (if containsUnit text 'y' then nsYear
       else if containsUnit text 'd' then nsDay
       else if containsUnit text 'h' then nsHour
       else nsMinute) := by
  refine ⟨by simp [getUnitMultiplier], by simp [getUnitMultiplier],
    by simp [getUnitMultiplier], ?_, ?_⟩
  · intro u
    rw [containsUnit, containsUnitAux_iff u text.data none]
    simp
  · by_cases hy : containsUnit text 'y' <;>
      by_cases hd : containsUnit text 'd' <;>
      by_cases hh : containsUnit text 'h' <;>
      by_cases hm : containsUnit text 'm' <;>
      by_cases hs : containsUnit text 's' <;>
      simp [getUnitMultiplier, detectLargestUnit, hy, hd, hh, hm, hs]

/-- Witness for C3's amended claim: `"1h30m"` scales by hours. -/
theorem unit_multiplier_spec_witness :
    getUnitMultiplier "smart" "1h30m" = nsHour := by
  have h := (unit_multiplier_spec "1h30m").2.2.2.2
  rw [h]
  decide

/-! ## C9: the popup compositor -/

/-- C9: the compositor centres the popup at
`rowOffset = max(0, (height-popupHeight)/2)` and
`colOffset = max(0, (width-popupWidth)/2)`; rows in the popup band are the
clipped background prefix (padded to `colOffset`), the popup line, and the
background tail past `colEnd` when it exists; rows outside the band are
the background line, or `width` spaces where the background has no row;
and every index used stays within both lines, also when
`popupHeight > height`. -/
theorem popup_overlay_spec (mainLines popupLines : List (List Char))
    (width height : Nat) :
    (((height - popupLines.length) / 2 : Nat) : Int) =
        max 0 (((height : Int) - popupLines.length) / 2) ∧
    (((width - popupWidth) / 2 : Nat) : Int) =
        max 0 (((width : Int) - popupWidth) / 2) ∧
    (renderPopupOverlay mainLines popupLines width height).length = height ∧
    (∀ row, row < height →
      (renderPopupOverlay mainLines popupLines width height)[row]? =
        some (
          if (height - popupLines.length) / 2 ≤ row ∧
              row < (height - popupLines.length) / 2 + popupLines.length then
            (mainLines.getD row []).take ((width - popupWidth) / 2)
              ++ List.replicate
                  ((width - popupWidth) / 2 - (mainLines.getD row []).length) ' '
              ++ popupLines.getD (row - (height - popupLines.length) / 2) []
              ++ (mainLines.getD row []).drop ((width - popupWidth) / 2 + popupWidth)
          else if row < mainLines.length then mainLines.getD row []
          else List.replicate width ' ')) ∧
    (∀ row, row < height →
      (height - popupLines.length) / 2 ≤ row →
      row < (height - popupLines.length) / 2 + popupLines.length →
      row - (height - popupLines.length) / 2 < popupLines.length) := by
  refine ⟨?_, ?_, ?_, ?_, ?_⟩
  · rw [Int.max_def]
    split <;> omega
  · rw [Int.max_def]
    split <;> omega
  · simp [renderPopupOverlay]
  · intro row hrow
    unfold renderPopupOverlay
    rw [List.getElem?_map, List.getElem?_range hrow]
    rw [Option.map_some']
    congr 1
    by_cases hband : (height - popupLines.length) / 2 ≤ row ∧
        row < (height - popupLines.length) / 2 + popupLines.length
    · rw [if_pos hband, if_pos hband]
      dsimp only
      by_cases hlen : (mainLines.getD row []).length > (width - popupWidth) / 2
      · have hz : (width - popupWidth) / 2 - (mainLines.getD row []).length = 0 := by
          omega
        by_cases hlen2 :
            (mainLines.getD row []).length > (width - popupWidth) / 2 + popupWidth
        · rw [if_pos hlen, if_pos hlen2, hz]
          simp
        · have hd : List.drop ((width - popupWidth) / 2 + popupWidth)
              (mainLines.getD row []) = [] :=
            List.drop_eq_nil_of_le (by omega)
          rw [if_pos hlen, if_neg hlen2, hz, hd]
          simp
      · have ht : List.take ((width - popupWidth) / 2) (mainLines.getD row []) =
            mainLines.getD row [] :=
          List.take_of_length_le (by omega)
        have hd : List.drop ((width - popupWidth) / 2 + popupWidth)
            (mainLines.getD row []) = [] :=
          List.drop_eq_nil_of_le (by omega)
        have hlen2 : ¬(mainLines.getD row []).length >
            (width - popupWidth) / 2 + popupWidth := by omega
        rw [if_neg hlen, if_neg hlen2, ht, hd]
    · rw [if_neg hband, if_neg hband]
  · intro row hrow h1 h2
    omega

/-! ## C4: adjustment clamps at one second -/

lemma natDigits_ne_nil (n : Nat) : natDigits n ≠ [] := by
  unfold natDigits natDigitsAux
  split <;> simp

lemma joinSpace_cons_ne_nil (p : List Char) (rest : List (List Char))
    (hp : p ≠ []) : joinSpace (p :: rest) ≠ [] := by
  cases rest with
  | nil => simpa [joinSpace] using hp
  | cons q qs => simp [joinSpace]

/-- Rounding to the nearest second does not drop below one second. -/
lemma goRoundSec_ge (v : Int) (h : nsSecond ≤ v) : nsSecond ≤ goRoundSec v := by
  have h0 : (0 : Int) ≤ v := by simp only [nsSecond] at h; omega
  unfold goRoundSec
  rw [Int.tmod_eq_emod h0 (by simp only [nsSecond]; omega), if_pos h0]
  simp only [nsSecond] at *
  split <;> omega

lemma formatForInputParts_ne_nil (n : Nat) :
    joinSpace (formatForInputParts n) ≠ [] := by
  unfold formatForInputParts
  by_cases hday : n / 86400 > 0
  · rw [if_pos hday]
    dsimp only
    by_cases hy : n / 86400 / 365 > 0
    · rw [if_pos hy]
      split <;> split <;>
        exact joinSpace_cons_ne_nil _ _ (by simp)
    · rw [if_neg hy]
      by_cases hmo : n / 86400 % 365 / 30 > 0
      · rw [if_pos hmo]
        split <;> exact joinSpace_cons_ne_nil _ _ (by simp)
      · rw [if_neg hmo]
        split
        · exact joinSpace_cons_ne_nil _ _ (by simp)
        · rename_i hcond
          rw [Bool.and_eq_true] at hcond
          simp only [decide_eq_true_eq, not_and, List.length_nil] at hcond
          omega
  · rw [if_neg hday]
    by_cases hh : n % 86400 / 3600 > 0
    · rw [if_pos hh]
      dsimp only
      split <;> exact joinSpace_cons_ne_nil _ _ (by simp)
    · rw [if_neg hh]
      by_cases hm : n % 3600 / 60 > 0
      · rw [if_pos hm]
        dsimp only
        split <;> exact joinSpace_cons_ne_nil _ _ (by simp)
      · rw [if_neg hm]
        exact joinSpace_cons_ne_nil _ _ (by simp)

lemma formatForInputChars_ne_nil (v : Int) (h : nsSecond ≤ v) :
    formatForInputChars v ≠ [] := by
  unfold formatForInputChars
  have h1 := goRoundSec_ge v h
  have h0 : (0 : Int) ≤ goRoundSec v := by simp only [nsSecond] at h1; omega
  have hts : 1 ≤ Int.tdiv (goRoundSec v) nsSecond := by
    rw [Int.tdiv_eq_ediv h0 (by simp only [nsSecond]; omega)]
    simp only [nsSecond] at *
    omega
  rw [if_neg (by omega)]
  apply formatForInputParts_ne_nil

/-- C4: `adjustDuration` always renders a clamped value of at least one
second, and the rendered text is never empty — the adjusted duration is
never zero or negative. -/
theorem adjust_clamps_to_one_second (currentInput : String) (delta : Int)
    (cfg : DurationAdjustConfig) :
    ∃ v : Int, nsSecond ≤ v ∧
      adjustDuration currentInput delta cfg = formatForInput v ∧
      adjustDuration currentInput delta cfg ≠ "" := by
  refine ⟨(fun cur =>
      if cur + delta < nsSecond then nsSecond else cur + delta)
      (match parseDuration currentInput with | some d => d | none => 0), ?_, rfl, ?_⟩
  · dsimp only
    split <;> omega
  · have hv : nsSecond ≤ (fun cur =>
        if cur + delta < nsSecond then nsSecond else cur + delta)
        (match parseDuration currentInput with | some d => d | none => 0) := by
      dsimp only
      split <;> omega
    intro hemp
    have : formatForInputChars ((fun cur =>
        if cur + delta < nsSecond then nsSecond else cur + delta)
        (match parseDuration currentInput with | some d => d | none => 0)) = [] := by
      have := congrArg String.data hemp
      simpa [adjustDuration, formatForInput] using this
    exact formatForInputChars_ne_nil _ hv this

/-! ## C2: the parse/format round trip

Decimal printing is inverse to the digit reading of the parser, and
parsing the rendered component sequence recovers the summed duration. -/

lemma isDigitChar_ofNat (k : Nat) (hk : k < 10) :
    isDigitChar (Char.ofNat (48 + k)) = true := by
  interval_cases k <;> decide

lemma digitVal_ofNat (k : Nat) (hk : k < 10) :
    digitVal (Char.ofNat (48 + k)) = k := by
  interval_cases k <;> decide

lemma natDigitsAux_all_digits : ∀ (fuel n : Nat), ∀ c ∈ natDigitsAux fuel n,
    isDigitChar c = true := by
  intro fuel
  induction fuel with
  | zero => intro n c hc; simp [natDigitsAux] at hc
  | succ f ih =>
    intro n c hc
    rw [natDigitsAux] at hc
    by_cases h : n < 10
    · rw [if_pos h] at hc
      simp only [List.mem_singleton] at hc
      rw [hc]
      exact isDigitChar_ofNat n h
    · rw [if_neg h] at hc
      rcases List.mem_append.mp hc with h1 | h1
      · exact ih (n / 10) c h1
      · simp only [List.mem_singleton] at h1
        rw [h1]
        exact isDigitChar_ofNat (n % 10) (Nat.mod_lt n (by omega))

lemma natDigits_all_digits (n : Nat) : ∀ c ∈ natDigits n, isDigitChar c = true :=
  natDigitsAux_all_digits (n + 1) n

lemma digitsToNat_append_singleton (l : List Char) (c : Char) :
    digitsToNat (l ++ [c]) = digitsToNat l * 10 + digitVal c := by
  unfold digitsToNat
  rw [List.foldl_append]
  rfl

lemma digitsToNat_natDigitsAux : ∀ (fuel n : Nat), n < fuel →
    digitsToNat (natDigitsAux fuel n) = n := by
  intro fuel
  induction fuel with
  | zero => omega
  | succ f ih =>
    intro n hn
    rw [natDigitsAux]
    by_cases h : n < 10
    · rw [if_pos h]
      show digitsToNat ([] ++ [Char.ofNat (48 + n)]) = n
      rw [digitsToNat_append_singleton, digitVal_ofNat n h]
      simp [digitsToNat]
    · rw [if_neg h]
      have hdiv : n / 10 < n := Nat.div_lt_self (by omega) (by omega)
      rw [digitsToNat_append_singleton, ih (n / 10) (by omega),
        digitVal_ofNat (n % 10) (Nat.mod_lt n (by omega))]
      omega

lemma digitsToNat_natDigits (n : Nat) : digitsToNat (natDigits n) = n :=
  digitsToNat_natDigitsAux (n + 1) n (by omega)

lemma isDigitChar_ne_space {c : Char} (hc : isDigitChar c = true) : ¬(c = ' ') := by
  intro h
  rw [h] at hc
  exact absurd hc (by decide)

lemma suffixMult_not_digit {u : Char} {mult : Int} (hu : suffixMult u = some mult) :
    isDigitChar u = false := by
  unfold suffixMult at hu
  split_ifs at hu with h1 h2 h3 h4 h5 <;>
    first
      | (subst h1; decide)
      | (subst h2; decide)
      | (subst h3; decide)
      | (subst h4; decide)
      | (subst h5; decide)

lemma suffixMult_not_space {u : Char} {mult : Int} (hu : suffixMult u = some mult) :
    ¬(u = ' ') := by
  intro h
  rw [h] at hu
  have hnone : suffixMult ' ' = none := by decide
  rw [hnone] at hu
  exact Option.noConfusion hu

lemma takeWhile_append_all {α : Type} (p : α → Bool) (l1 l2 : List α)
    (h : ∀ c ∈ l1, p c = true) :
    List.takeWhile p (l1 ++ l2) = l1 ++ List.takeWhile p l2 := by
  induction l1 with
  | nil => simp
  | cons a l ih =>
    rw [List.cons_append, List.takeWhile_cons_of_pos (h a (by simp)), ih]
    · rfl
    · intro c hc
      exact h c (by simp [hc])

lemma dropWhile_append_all {α : Type} (p : α → Bool) (l1 l2 : List α)
    (h : ∀ c ∈ l1, p c = true) :
    List.dropWhile p (l1 ++ l2) = List.dropWhile p l2 := by
  induction l1 with
  | nil => simp
  | cons a l ih =>
    rw [List.cons_append, List.dropWhile_cons_of_pos (h a (by simp)), ih]
    intro c hc
    exact h c (by simp [hc])

/-- The third equation of `parseCompAux`, stated for rewriting. -/
lemma parseCompAux_cons (fuel : Nat) (c : Char) (rest : List Char) (total : Int) :
    parseCompAux (fuel + 1) (c :: rest) total =
      if c = ' ' then parseCompAux fuel rest total
      else
        let digits := List.takeWhile isDigitChar (c :: rest)
        if digits.isEmpty then none
        else
          let num := digitsToNat digits
          if num = 0 then none
          else
            match List.dropWhile isDigitChar (c :: rest) with
            | [] => some (total + (num : Int) * nsSecond)
            | u :: rest2 =>
              match suffixMult u with
              | none => none
              | some mult => parseCompAux fuel rest2 (total + (num : Int) * mult) := rfl

lemma parseCompAux_space (fuel : Nat) (rest : List Char) (total : Int) :
    parseCompAux (fuel + 1) (' ' :: rest) total = parseCompAux fuel rest total := by
  rw [parseCompAux_cons]
  simp

/-- Reading one `digits ++ unit` component. -/
lemma parseCompAux_component (fuel : Nat) (ds : List Char) (u : Char) (mult : Int)
    (rest : List Char) (total : Int)
    (hne : ds ≠ []) (hall : ∀ c ∈ ds, isDigitChar c = true)
    (hnum : digitsToNat ds ≠ 0) (hu : suffixMult u = some mult) :
    parseCompAux (fuel + 1) (ds ++ u :: rest) total =
      parseCompAux fuel rest (total + (digitsToNat ds : Int) * mult) := by
  obtain ⟨c, ds', rfl⟩ := List.exists_cons_of_ne_nil hne
  rw [List.cons_append, parseCompAux_cons,
    if_neg (isDigitChar_ne_space (hall c (by simp)))]
  have htake : List.takeWhile isDigitChar (c :: (ds' ++ u :: rest)) =
      (c :: ds') ++ List.takeWhile isDigitChar (u :: rest) := by
    rw [show c :: (ds' ++ u :: rest) = (c :: ds') ++ (u :: rest) from rfl]
    exact takeWhile_append_all isDigitChar (c :: ds') (u :: rest) hall
  have hcdrop : List.dropWhile isDigitChar (c :: (ds' ++ u :: rest)) = u :: rest := by
    rw [show c :: (ds' ++ u :: rest) = (c :: ds') ++ (u :: rest) from rfl,
      dropWhile_append_all isDigitChar (c :: ds') (u :: rest) hall,
      List.dropWhile_cons_of_neg]
    rw [suffixMult_not_digit hu]
    simp
  have htake2 : List.takeWhile isDigitChar (u :: rest) = [] := by
    rw [List.takeWhile_cons_of_neg]
    rw [suffixMult_not_digit hu]
    simp
  rw [htake, htake2, List.append_nil, hcdrop]
  simp only [List.isEmpty_cons, Bool.false_eq_true, if_false, hu]
  rw [if_neg hnum]

/-- One rendered component: decimal digits followed by a unit letter. -/
def renderComp (c : Nat × Char) : List Char := natDigits c.1 ++ [c.2]

/-- A space-joined component sequence, the shape of the formatter output
on the round-trip domain. -/
def renderComps : List (Nat × Char) → List Char
  | [] => []
  | [c] => renderComp c
  | c :: rest => renderComp c ++ ' ' :: renderComps rest

/-- The duration denoted by a component sequence. -/
def sumComps (l : List (Nat × Char)) : Int :=
  l.foldr (fun c acc => (c.1 : Int) * (suffixMult c.2).getD 0 + acc) 0

lemma renderComps_cons₂ (c c2 : Nat × Char) (rest : List (Nat × Char)) :
    renderComps (c :: c2 :: rest) = renderComp c ++ ' ' :: renderComps (c2 :: rest) :=
  rfl

lemma renderComps_ne_nil (c : Nat × Char) (rest : List (Nat × Char)) :
    renderComps (c :: rest) ≠ [] := by
  cases rest with
  | nil =>
    show renderComp c ≠ []
    simp [renderComp]
  | cons c2 rest2 =>
    rw [renderComps_cons₂]
    simp [renderComp]

/-- Parsing a rendered component sequence yields the summed duration. -/
lemma parseCompAux_renderComps : ∀ (comps : List (Nat × Char)) (fuel : Nat)
    (total : Int),
    (∀ c ∈ comps, c.1 ≠ 0 ∧ (suffixMult c.2).isSome = true) →
    (renderComps comps).length + 1 ≤ fuel →
    parseCompAux fuel (renderComps comps) total = some (total + sumComps comps) := by
  intro comps
  induction comps with
  | nil =>
    intro fuel total hwf hfuel
    cases fuel with
    | zero => omega
    | succ f =>
      rw [show renderComps [] = [] from rfl,
        show parseCompAux (f + 1) [] total = some total from rfl]
      simp [sumComps]
  | cons c rest ih =>
    intro fuel total hwf hfuel
    obtain ⟨hc1, hc2⟩ := hwf c (by simp)
    obtain ⟨mult, hmult⟩ := Option.isSome_iff_exists.mp hc2
    have hnd : 0 < (natDigits c.1).length :=
      List.length_pos.mpr (natDigits_ne_nil c.1)
    cases rest with
    | nil =>
      cases fuel with
      | zero => omega
      | succ f =>
        have hchars : renderComps [c] = natDigits c.1 ++ c.2 :: [] := rfl
        rw [hchars] at hfuel ⊢
        rw [parseCompAux_component f (natDigits c.1) c.2 mult [] total
          (natDigits_ne_nil c.1) (natDigits_all_digits c.1)
          (by rw [digitsToNat_natDigits]; exact hc1) hmult]
        have hf : 1 ≤ f := by
          rw [List.length_append] at hfuel
          simp at hfuel
          omega
        cases f with
        | zero => omega
        | succ g =>
          rw [show parseCompAux (g + 1) []
            (total + (digitsToNat (natDigits c.1) : Int) * mult) =
            some (total + (digitsToNat (natDigits c.1) : Int) * mult) from rfl]
          rw [digitsToNat_natDigits]
          congr 1
          simp [sumComps, hmult]
    | cons c2 rest2 =>
      cases fuel with
      | zero => omega
      | succ f =>
        have hchars : renderComps (c :: c2 :: rest2) =
            natDigits c.1 ++ c.2 :: (' ' :: renderComps (c2 :: rest2)) := by
          rw [renderComps_cons₂]
          simp [renderComp]
        rw [hchars] at hfuel ⊢
        rw [parseCompAux_component f (natDigits c.1) c.2 mult
          (' ' :: renderComps (c2 :: rest2)) total
          (natDigits_ne_nil c.1) (natDigits_all_digits c.1)
          (by rw [digitsToNat_natDigits]; exact hc1) hmult]
        have hf : 1 ≤ f := by
          rw [List.length_append] at hfuel
          simp at hfuel
          omega
        cases f with
        | zero => omega
        | succ g =>
          rw [parseCompAux_space]
          rw [ih g (total + (digitsToNat (natDigits c.1) : Int) * mult)
            (fun x hx => hwf x (by simp [hx]))
            (by
              rw [List.length_append] at hfuel
              simp at hfuel ⊢
              omega)]
          rw [digitsToNat_natDigits]
          congr 1
          rw [show sumComps (c :: c2 :: rest2) =
            (c.1 : Int) * (suffixMult c.2).getD 0 + sumComps (c2 :: rest2) from rfl]
          rw [hmult]
          show total + (c.1 : Int) * mult + sumComps (c2 :: rest2) =
            total + ((c.1 : Int) * mult + sumComps (c2 :: rest2))
          ring

lemma map_id_of_forall {α : Type} (f : α → α) (l : List α) (h : ∀ c ∈ l, f c = c) :
    l.map f = l := by
  induction l with
  | nil => rfl
  | cons a tl ih =>
    rw [List.map_cons, h a (by simp), ih (fun c hc => h c (by simp [hc]))]

lemma toLower_eq_self_of (c : Char) (h : c.toNat < 65 ∨ 90 < c.toNat) :
    c.toLower = c := by
  unfold Char.toLower
  rw [if_neg]
  omega

lemma isDigit_toLower {c : Char} (h : isDigitChar c = true) : c.toLower = c := by
  apply toLower_eq_self_of
  simp [isDigitChar] at h
  omega

lemma suffix_toLower {u : Char} (h : (suffixMult u).isSome = true) :
    u.toLower = u := by
  unfold suffixMult at h
  split_ifs at h with h1 h2 h3 h4 h5
  · subst h1; decide
  · subst h2; decide
  · subst h3; decide
  · subst h4; decide
  · subst h5; decide
  · simp at h

lemma renderComps_toLower : ∀ (comps : List (Nat × Char)),
    (∀ c ∈ comps, (suffixMult c.2).isSome = true) →
    ∀ x ∈ renderComps comps, x.toLower = x := by
  intro comps
  induction comps with
  | nil => intro _ x hx; simp [renderComps] at hx
  | cons c rest ih =>
    intro hwf x hx
    have hc := hwf c (by simp)
    cases rest with
    | nil =>
      have : x ∈ natDigits c.1 ++ [c.2] := hx
      rcases List.mem_append.mp this with h1 | h1
      · exact isDigit_toLower (natDigits_all_digits c.1 x h1)
      · simp only [List.mem_singleton] at h1
        rw [h1]
        exact suffix_toLower hc
    | cons c2 rest2 =>
      rw [renderComps_cons₂] at hx
      rcases List.mem_append.mp hx with h1 | h1
      · rcases List.mem_append.mp h1 with h2 | h2
        · exact isDigit_toLower (natDigits_all_digits c.1 x h2)
        · simp only [List.mem_singleton] at h2
          rw [h2]
          exact suffix_toLower hc
      · rcases List.mem_cons.mp h1 with h2 | h2
        · rw [h2]; decide
        · exact ih (fun d hd => hwf d (by simp [hd])) x h2

lemma renderComps_head (c : Nat × Char) (rest : List (Nat × Char)) :
    ∃ x, (renderComps (c :: rest)).head? = some x ∧ isDigitChar x = true := by
  obtain ⟨d, tl, hd⟩ := List.exists_cons_of_ne_nil (natDigits_ne_nil c.1)
  have hdig : isDigitChar d = true := by
    apply natDigits_all_digits c.1
    rw [hd]
    simp
  cases rest with
  | nil =>
    refine ⟨d, ?_, hdig⟩
    show (natDigits c.1 ++ [c.2]).head? = some d
    rw [hd]
    rfl
  | cons c2 rest2 =>
    refine ⟨d, ?_, hdig⟩
    rw [renderComps_cons₂]
    show (natDigits c.1 ++ [c.2] ++ _).head? = some d
    rw [hd]
    rfl

lemma renderComps_last : ∀ (comps : List (Nat × Char)) (c : Nat × Char)
    (rest : List (Nat × Char)), comps = c :: rest →
    (∀ x ∈ comps, (suffixMult x.2).isSome = true) →
    ∃ u, (renderComps comps).getLast? = some u ∧ (suffixMult u).isSome = true := by
  intro comps
  induction comps with
  | nil => intro c rest h; exact absurd h (by simp)
  | cons c rest ih =>
    intro _ _ _ hwf
    cases rest with
    | nil =>
      refine ⟨c.2, ?_, hwf c (by simp)⟩
      show (natDigits c.1 ++ [c.2]).getLast? = some c.2
      exact List.getLast?_concat _
    | cons c2 rest2 =>
      obtain ⟨u, hu, husome⟩ := ih c2 rest2 rfl (fun x hx => hwf x (by simp [hx]))
      refine ⟨u, ?_, husome⟩
      rw [renderComps_cons₂,
        List.getLast?_append_of_ne_nil _ (by simp),
        show ' ' :: renderComps (c2 :: rest2) = [' '] ++ renderComps (c2 :: rest2)
          from rfl,
        List.getLast?_append_of_ne_nil _ (renderComps_ne_nil c2 rest2)]
      exact hu

/-- `goTrimLower` is the identity on lowercase text with no space at
either end. -/
lemma goTrimLower_clean (l : List Char)
    (hlower : ∀ c ∈ l, c.toLower = c)
    (hhead : ∀ c, l.head? = some c → ¬(c = ' '))
    (hlast : ∀ c, l.getLast? = some c → ¬(c = ' ')) :
    goTrimLower ⟨l⟩ = l := by
  unfold goTrimLower
  rw [show (String.mk l).data = l from rfl, map_id_of_forall Char.toLower l hlower]
  show ((l.dropWhile (fun c => c = ' ')).reverse.dropWhile (fun c => c = ' ')).reverse = l
  have h1 : l.dropWhile (fun c => c = ' ') = l := by
    cases l with
    | nil => rfl
    | cons a tl =>
      rw [List.dropWhile_cons_of_neg (by simpa using hhead a rfl)]
  rw [h1]
  cases hrev : l.reverse with
  | nil =>
    have : l = [] := by simpa using congrArg List.reverse hrev
    simp [this]
  | cons b tl =>
    have hb : ¬(b = ' ') := by
      apply hlast
      rw [← List.head?_reverse, hrev]
      rfl
    rw [List.dropWhile_cons_of_neg (by simpa using hb), ← hrev,
      List.reverse_reverse]

lemma goRoundSec_of_whole (d : Int) (h0 : 0 ≤ d) (hw : d % nsSecond = 0) :
    goRoundSec d = d := by
  simp only [goRoundSec]
  rw [Int.tmod_eq_emod h0 (by simp only [nsSecond]; omega), hw, if_pos h0]
  norm_num [nsSecond]

lemma tdiv_mul_nsSecond (s : Nat) :
    Int.tdiv ((s : Int) * nsSecond) nsSecond = (s : Int) := by
  rw [Int.tdiv_eq_ediv (by simp only [nsSecond]; positivity)
    (by simp only [nsSecond]; omega)]
  exact Int.mul_ediv_cancel _ (by simp only [nsSecond]; omega)

lemma intStr_natCast (k : Nat) : intStr (k : Int) = natDigits k := by
  unfold intStr
  rw [if_neg (by omega : ¬((k : Int) < 0))]
  congr 1

lemma joinSpace_split (parts : List (List Char)) (h : parts.length > 2) :
    joinSpace (parts.take 2) ++ ' ' :: joinSpace (parts.drop 2) = joinSpace parts := by
  match parts, h with
  | a :: b :: c :: rest, _ =>
    show joinSpace [a, b] ++ ' ' :: joinSpace (c :: rest) =
      joinSpace (a :: b :: c :: rest)
    rw [show joinSpace [a, b] = a ++ ' ' :: b from rfl,
      show joinSpace (a :: b :: c :: rest) =
        a ++ ' ' :: joinSpace (b :: c :: rest) from rfl,
      show joinSpace (b :: c :: rest) = b ++ ' ' :: joinSpace (c :: rest) from rfl]
    simp

lemma joinSpace_ite_split (parts : List (List Char)) :
    (if parts.length > 2 then
      joinSpace (parts.take 2) ++ ' ' :: joinSpace (parts.drop 2)
     else joinSpace parts) = joinSpace parts := by
  split
  · exact joinSpace_split parts (by omega)
  · rfl

lemma joinSpace_map_renderComp : ∀ (comps : List (Nat × Char)),
    joinSpace (comps.map renderComp) = renderComps comps
  | [] => rfl
  | [c] => rfl
  | c :: c2 :: rest => by
    rw [List.map_cons, List.map_cons,
      show joinSpace (renderComp c :: renderComp c2 :: rest.map renderComp) =
        renderComp c ++ ' ' :: joinSpace (renderComp c2 :: rest.map renderComp)
        from rfl,
      show renderComp c2 :: rest.map renderComp = (c2 :: rest).map renderComp
        from rfl,
      joinSpace_map_renderComp (c2 :: rest), renderComps_cons₂]

lemma ite_singleton_eq_nil {α : Type} {P : Prop} [Decidable P] {x : α}
    (h : (if P then [x] else []) = []) : ¬P := by
  intro hp
  rw [if_pos hp] at h
  exact absurd h (by simp)

lemma cons_eq_nil_iff_false {α : Type} (a : α) (l : List α) :
    (a :: l = []) ↔ False := by
  simp

lemma suffixMult_s_val : suffixMult 's' = some nsSecond := by decide

lemma suffixMult_m_val : suffixMult 'm' = some nsMinute := by decide

lemma suffixMult_h_val : suffixMult 'h' = some nsHour := by decide

lemma suffixMult_d_val : suffixMult 'd' = some nsDay := by decide

/-- The component decomposition of a sub-30-day whole-second duration:
days, hours, minutes, seconds, each emitted when non-zero (seconds also
when nothing else is). -/
def smallComps (s : Nat) : List (Nat × Char) :=
  (if 0 < s / 86400 then [(s / 86400, 'd')] else []) ++
  (if 0 < s % 86400 / 3600 then [(s % 86400 / 3600, 'h')] else []) ++
  (if 0 < s % 3600 / 60 then [(s % 3600 / 60, 'm')] else []) ++
  (if 0 < s % 60 ∨ (s / 86400 = 0 ∧ s % 86400 / 3600 = 0 ∧ s % 3600 / 60 = 0)
   then [(s % 60, 's')] else [])

/-- Below 30 days, `formatDuration` renders exactly the space-joined
day/hour/minute/second components. -/
lemma formatDurationChars_small (s : Nat) (h1 : 1 ≤ s) (h2 : s < 2592000) :
    formatDurationChars ((s : Int) * nsSecond) = renderComps (smallComps s) := by
  have hd0 : 0 ≤ (s : Int) * nsSecond := by simp only [nsSecond]; positivity
  have hdw : ((s : Int) * nsSecond) % nsSecond = 0 := by simp only [nsSecond]; omega
  simp only [formatDurationChars]
  rw [goRoundSec_of_whole _ hd0 hdw, tdiv_mul_nsSecond s]
  rw [show Int.tmod (s : Int) 86400 = ((s % 86400 : Nat) : Int) from rfl,
    show Int.tmod (s : Int) 3600 = ((s % 3600 : Nat) : Int) from rfl,
    show Int.tmod (s : Int) 60 = ((s % 60 : Nat) : Int) from rfl,
    show Int.tdiv (s : Int) 86400 = ((s / 86400 : Nat) : Int) from rfl,
    show Int.tdiv ((s % 86400 : Nat) : Int) 3600 =
      ((s % 86400 / 3600 : Nat) : Int) from rfl,
    show Int.tdiv ((s % 3600 : Nat) : Int) 60 =
      ((s % 3600 / 60 : Nat) : Int) from rfl,
    show Int.tdiv ((s / 86400 : Nat) : Int) 365 =
      ((s / 86400 / 365 : Nat) : Int) from rfl,
    show Int.tmod ((s / 86400 : Nat) : Int) 365 =
      ((s / 86400 % 365 : Nat) : Int) from rfl,
    show Int.tdiv ((s / 86400 % 365 : Nat) : Int) 30 =
      ((s / 86400 % 365 / 30 : Nat) : Int) from rfl,
    show Int.tmod ((s / 86400 % 365 : Nat) : Int) 30 =
      ((s / 86400 % 365 % 30 : Nat) : Int) from rfl]
  rw [show s / 86400 / 365 = 0 from by omega,
    show s / 86400 % 365 / 30 = 0 from by omega,
    show s / 86400 % 365 % 30 = s / 86400 from by omega]
  rw [if_neg (show ¬((s / 86400 : Nat) : Int) > 60 from by omega)]
  rw [joinSpace_ite_split, ← joinSpace_map_renderComp]
  congr 1
  by_cases hDp : 0 < s / 86400 <;> by_cases hHp : 0 < s % 86400 / 3600 <;>
    by_cases hMp : 0 < s % 3600 / 60 <;>
    (first
      | have hD0 : ¬s / 86400 = 0 := by omega
      | have hD0 : s / 86400 = 0 := by omega) <;>
    (first
      | have hH0 : ¬s % 86400 / 3600 = 0 := by omega
      | have hH0 : s % 86400 / 3600 = 0 := by omega) <;>
    (first
      | have hM0 : ¬s % 3600 / 60 = 0 := by omega
      | have hM0 : s % 3600 / 60 = 0 := by omega) <;>
    simp only [smallComps, List.map_append, List.map_cons, List.map_nil,
      apply_ite (List.map renderComp), renderComp, intStr_natCast,
      gt_iff_lt, Int.natCast_pos, Nat.cast_zero, lt_self_iff_false,
      Bool.or_eq_true, decide_eq_true_eq, List.isEmpty_iff,
      cons_eq_nil_iff_false, or_false, false_or, or_true, true_or,
      and_true, true_and, and_false, false_and, eq_self_iff_true,
      if_true, if_false, List.nil_append, List.append_nil,
      List.cons_append, List.append_assoc, List.singleton_append,
      hDp, hHp, hMp, hD0, hH0, hM0] <;>
    (first
      | rfl
      | (by_cases hSp : 0 < s % 60 <;> simp [hSp]))

lemma mem_ite_singleton {α : Type} {P : Prop} [Decidable P] {x c : α}
    (h : c ∈ (if P then [x] else [])) : P ∧ c = x := by
  by_cases hp : P
  · rw [if_pos hp] at h
    simp at h
    exact ⟨hp, h⟩
  · rw [if_neg hp] at h
    simp at h

lemma smallComps_wf (s : Nat) (h1 : 1 ≤ s) :
    ∀ c ∈ smallComps s, c.1 ≠ 0 ∧ (suffixMult c.2).isSome = true := by
  intro c hc
  unfold smallComps at hc
  rcases List.mem_append.mp hc with h123 | h4
  · rcases List.mem_append.mp h123 with h12 | h3
    · rcases List.mem_append.mp h12 with hd | hh
      · obtain ⟨hp, rfl⟩ := mem_ite_singleton hd
        exact ⟨by omega, (by decide : (suffixMult 'd').isSome = true)⟩
      · obtain ⟨hp, rfl⟩ := mem_ite_singleton hh
        exact ⟨by omega, (by decide : (suffixMult 'h').isSome = true)⟩
    · obtain ⟨hp, rfl⟩ := mem_ite_singleton h3
      exact ⟨by omega, (by decide : (suffixMult 'm').isSome = true)⟩
  · obtain ⟨hp, rfl⟩ := mem_ite_singleton h4
    refine ⟨?_, (by decide : (suffixMult 's').isSome = true)⟩
    rcases hp with hS | ⟨hD, hH, hM⟩
    · omega
    · omega

lemma sumComps_smallComps (s : Nat) :
    sumComps (smallComps s) = (s : Int) * nsSecond := by
  unfold smallComps
  by_cases hD : 0 < s / 86400 <;> by_cases hH : 0 < s % 86400 / 3600 <;>
    by_cases hM : 0 < s % 3600 / 60 <;>
    by_cases hS : 0 < s % 60 ∨
      (s / 86400 = 0 ∧ s % 86400 / 3600 = 0 ∧ s % 3600 / 60 = 0) <;>
    simp [hD, hH, hM, hS, sumComps, suffixMult_d_val, suffixMult_h_val,
      suffixMult_m_val, suffixMult_s_val] <;>
    (simp only [nsSecond, nsMinute, nsHour, nsDay]; omega)

lemma smallComps_ne_nil (s : Nat) (h1 : 1 ≤ s) : smallComps s ≠ [] := by
  unfold smallComps
  intro heq
  rcases List.append_eq_nil.mp heq with ⟨h123, h4⟩
  rcases List.append_eq_nil.mp h123 with ⟨h12, h3⟩
  rcases List.append_eq_nil.mp h12 with ⟨hd, hh⟩
  have hD := ite_singleton_eq_nil hd
  have hH := ite_singleton_eq_nil hh
  have hM := ite_singleton_eq_nil h3
  have hS := ite_singleton_eq_nil h4
  exact hS (Or.inr ⟨by omega, by omega, by omega⟩)

/-- C2 counterexample: 30 days is at least one second and a whole number
of seconds, yet the formatter renders it as `"1mo"`, which the parser
rejects (it reads `1m` and then chokes on `o`) — the round trip fails, so
parsing does not succeed for every `d ≥ 1s`. -/
theorem parse_format_counterexample :
    formatDuration ((2592000 : Int) * nsSecond) = "1mo" ∧
    parseDuration (formatDuration ((2592000 : Int) * nsSecond)) = none := by
  constructor <;> decide

/-- C2 (amended): for every whole-second duration of at least one second
and less than 30 days, parsing the formatted text succeeds and returns
exactly the original duration (in particular within one second).  From 30
days upward the formatter emits a month component `"⟨n⟩mo"` or truncates,
and the round trip fails. -/
theorem parse_format_roundtrip (s : Nat) (h1 : 1 ≤ s) (h2 : s < 2592000) :
    parseDuration (formatDuration ((s : Int) * nsSecond)) =
      some ((s : Int) * nsSecond) := by
  have hfmt := formatDurationChars_small s h1 h2
  have hwf := smallComps_wf s h1
  obtain ⟨c0, rest0, hcons⟩ := List.exists_cons_of_ne_nil (smallComps_ne_nil s h1)
  have hlower : ∀ x ∈ renderComps (smallComps s), x.toLower = x :=
    renderComps_toLower _ (fun c hc => (hwf c hc).2)
  have hhead : ∀ c, (renderComps (smallComps s)).head? = some c → ¬(c = ' ') := by
    intro c hc
    rw [hcons] at hc
    obtain ⟨x, hx, hdig⟩ := renderComps_head c0 rest0
    rw [hx] at hc
    rw [← Option.some.inj hc]
    exact isDigitChar_ne_space hdig
  have hlast : ∀ c, (renderComps (smallComps s)).getLast? = some c → ¬(c = ' ') := by
    intro c hc
    obtain ⟨u, hu, husome⟩ :=
      renderComps_last (smallComps s) c0 rest0 hcons (fun x hx => (hwf x hx).2)
    rw [hu] at hc
    rw [← Option.some.inj hc]
    obtain ⟨mult, hmult⟩ := Option.isSome_iff_exists.mp husome
    exact suffixMult_not_space hmult
  unfold formatDuration
  rw [hfmt]
  unfold parseDuration
  rw [goTrimLower_clean _ hlower hhead hlast]
  rw [if_neg (by
    rw [hcons]
    simpa using renderComps_ne_nil c0 rest0)]
  unfold parseComponents
  rw [parseCompAux_renderComps (smallComps s) ((renderComps (smallComps s)).length + 1)
    0 (fun c hc => ⟨(hwf c hc).1, (hwf c hc).2⟩) (by omega)]
  rw [sumComps_smallComps]
  dsimp only
  rw [if_neg (by
    simp only [nsSecond]
    omega : ¬(0 + (s : Int) * nsSecond ≤ 0))]
  rw [zero_add]

/-- Witness for C2's amended claim: 5400 seconds formats as `"1h 30m"` and
parses back to exactly 5400 seconds. -/
theorem parse_format_roundtrip_witness :
    parseDuration (formatDuration (((5400 : Nat) : Int) * nsSecond)) =
      some (((5400 : Nat) : Int) * nsSecond) :=
  parse_format_roundtrip 5400 (by omega) (by omega)

/-- Witness for C9: a 3-row viewport with a one-line popup places the
popup on the middle row. -/
theorem popup_overlay_spec_witness :
    (renderPopupOverlay [['a', 'b'], ['c']] [['P']] 3 3)[1]? = some ['P'] := by
  have h := (popup_overlay_spec [['a', 'b'], ['c']] [['P']] 3 3).2.2.2.1 1 (by decide)
  rw [h]
  decide

end Countdown
